import Mathlib

/-!
Shallow embedding of the "pump strategy" client-side backtesting engine
(two variants: `app.js`, the single-window + SMA-filter engine, and the
V2 multi-window-vote + trailing-stop engine), over exact rational
arithmetic, together with theorems checking the specification's claims
about signal generation, trade simulation and performance metrics.
-/

namespace PumpStrategy

/-- One daily record of the input time series: `{date, price, revenue}`. -/
structure DailyRecord where
  date : String
  price : ℚ
  revenue : ℚ
  deriving Repr, DecidableEq, Inhabited

/-- JavaScript `Math.round`: rounds to the nearest integer, halves toward
positive infinity, i.e. `floor (x + 1/2)`. -/
def jsRound (x : ℚ) : ℚ := (⌊x + 1/2⌋ : ℤ)

/-- `Math.round(x * 100) / 100`: round to 2 decimal places, as the engine
does when emitting equity values. -/
def round2 (x : ℚ) : ℚ := jsRound (x * 100) / 100

/-- Revenue of `data[j]` (in-range use only; out of range gives the default
record, matching the fact that the engine only reads valid indices). -/
def revenueAt (data : List DailyRecord) (j : ℕ) : ℚ :=
  (data.getD j default).revenue

/-- Price of `data[j]`. -/
def priceAt (data : List DailyRecord) (j : ℕ) : ℚ :=
  (data.getD j default).price

/-- Sum of `data[j].revenue` for `j` in `[lo, lo + len)`, the pattern of the
engine's rolling-sum loops `for (let j = lo; j < lo + len; j++)`. -/
def sumRev (data : List DailyRecord) (lo len : ℕ) : ℚ :=
  ((List.range len).map (fun k => revenueAt data (lo + k))).sum

/-- Sum of `data[j].price` for `j` in `[lo, lo + len)`. -/
def sumPrice (data : List DailyRecord) (lo len : ℕ) : ℚ :=
  ((List.range len).map (fun k => priceAt data (lo + k))).sum

/-! ### Variant A signal generator (`app.js`, single window + SMA filter) -/

/-- `minLookback = Math.max(2 * window_days, sma_days)` from `app.js`. -/
def minLookbackA (windowDays smaDays : ℕ) : ℕ :=
  max (2 * windowDays) smaDays

/-- `recentAvg = recentSum / window_days` over days `[i - window_days, i)`. -/
def recentAvgA (data : List DailyRecord) (windowDays i : ℕ) : ℚ :=
  sumRev data (i - windowDays) windowDays / (windowDays : ℚ)

/-- `prevAvg = prevSum / window_days` over days
`[i - 2 * window_days, i - window_days)`. -/
def prevAvgA (data : List DailyRecord) (windowDays i : ℕ) : ℚ :=
  sumRev data (i - 2 * windowDays) windowDays / (windowDays : ℚ)

/-- `smaPrice = smaSum / sma_days` over days `[i - sma_days, i)`. -/
def smaPriceA (data : List DailyRecord) (smaDays i : ℕ) : ℚ :=
  sumPrice data (i - smaDays) smaDays / (smaDays : ℚ)

/-- `uptrend = currPrice >= smaPrice * 0.95` with
`currPrice = data[i - 1].price`. -/
abbrev uptrendA (data : List DailyRecord) (smaDays i : ℕ) : Prop :=
  priceAt data (i - 1) ≥ smaPriceA data smaDays i * (95 / 100)

/-- The body of the variant-A signal loop for a day `i ≥ minLookback`,
given the previous day's signal: the 1 / 0 / carry-forward decision chain
of `app.js` lines 81-87. -/
def signalABody (data : List DailyRecord) (windowDays smaDays i : ℕ)
    (prevSignal : ℕ) : ℕ :=
  if recentAvgA data windowDays i > prevAvgA data windowDays i ∧
      uptrendA data smaDays i then 1
  else if recentAvgA data windowDays i < prevAvgA data windowDays i ∨
      ¬uptrendA data smaDays i then 0
  else prevSignal

/-- Variant-A signal at day `i` (`signals[i]` of `app.js`). Days before
`minLookback` are forced to `0`; afterwards the loop body runs with
`prevSignal = i > 0 ? signals[i-1] : 0`. -/
def signalA (data : List DailyRecord) (windowDays smaDays : ℕ) : ℕ → ℕ
  | 0 =>
    if 0 < minLookbackA windowDays smaDays then 0
    else signalABody data windowDays smaDays 0 0
  | i + 1 =>
    if i + 1 < minLookbackA windowDays smaDays then 0
    else signalABody data windowDays smaDays (i + 1)
      (signalA data windowDays smaDays i)

/-! ### Shared portfolio simulator (identical in both variants) -/

/-- `initialCapital` is the hard-coded constant `100000` of both engines. -/
def initialCapital : ℚ := 100000

/-- Portfolio state during simulation: `capital` (cash) and `position`
(units held). -/
structure PortState where
  cash : ℚ
  units : ℚ
  deriving Repr, DecidableEq

/-- One day's execution step: acting on the PREVIOUS day's signal at the
current day's price. Buy all-in when the signal is `1` and the portfolio
is flat (`position === 0`); sell everything when the signal is `0` and
units are held (`position > 0`); otherwise unchanged. -/
def tradeStep (prevSig : ℕ) (price : ℚ) (st : PortState) : PortState :=
  if prevSig = 1 ∧ st.units = 0 then ⟨0, st.cash / price⟩
  else if prevSig = 0 ∧ 0 < st.units then ⟨st.units * price, 0⟩
  else st

/-- Portfolio state at day `i`, after day `i`'s trade (day 0 has no trade
because of the `i > 0` guard). -/
def portState (sig : ℕ → ℕ) (data : List DailyRecord) : ℕ → PortState
  | 0 => ⟨initialCapital, 0⟩
  | i + 1 => tradeStep (sig i) (priceAt data (i + 1)) (portState sig data i)

/-- Buy-and-hold benchmark position: `initialCapital / data[0].price`. -/
def bhPosition (data : List DailyRecord) : ℚ :=
  initialCapital / priceAt data 0

/-- One emitted history row (`history.push({...})` of both engines). -/
structure HistRow where
  date : String
  price : ℚ
  revenue : ℚ
  equity : ℚ
  bhEquity : ℚ
  signal : ℕ
  deriving Repr, DecidableEq, Inhabited

/-- The history row emitted at day `i`: equity values rounded to 2
decimals. -/
def historyRow (sig : ℕ → ℕ) (data : List DailyRecord) (i : ℕ) : HistRow :=
  { date := (data.getD i default).date
    price := priceAt data i
    revenue := revenueAt data i
    equity := round2 ((portState sig data i).cash +
      (portState sig data i).units * priceAt data i)
    bhEquity := round2 (bhPosition data * priceAt data i)
    signal := sig i }

/-- The full emitted history of a simulation run. -/
def history (sig : ℕ → ℕ) (data : List DailyRecord) : List HistRow :=
  (List.range data.length).map (historyRow sig data)

/-- Variant-A engine: guard `RAW_DATA.length < 2` (in which case nothing is
produced), then signals and simulation. -/
def runBacktestA (data : List DailyRecord) (windowDays smaDays : ℕ) :
    Option (List HistRow) :=
  if data.length < 2 then none
  else some (history (signalA data windowDays smaDays) data)

/-! ### Variant B signal generator (V2 engine: multi-window vote +
trailing stop) -/

/-- The fixed ensemble windows `[3, 7, 14]` of the V2 engine. -/
def windowsB : List ℕ := [3, 7, 14]

/-- `minLookback = Math.max(...windows) * 2` of the V2 engine. -/
def minLookbackB : ℕ := windowsB.foldl max 0 * 2

/-- Vote count at day `i`: one vote per window `w` with
`recentSum / w > prevSum / w`. -/
def votesB (data : List DailyRecord) (i : ℕ) : ℕ :=
  windowsB.foldl
    (fun v w =>
      if sumRev data (i - w) w / (w : ℚ) > sumRev data (i - 2 * w) w / (w : ℚ)
      then v + 1 else v) 0

/-- Mutable accumulator state of the V2 signal loop: `peakPrice` and
`inPosition`. -/
structure StateB where
  peak : ℚ
  inPos : Bool
  deriving Repr, DecidableEq

/-- `momentumSignal = votes >= 2 ? 1 : 0` (majority of the three
windows). -/
def momentumB (data : List DailyRecord) (i : ℕ) : ℕ :=
  if 2 ≤ votesB data i then 1 else 0

/-- The updated `peakPrice` while in a position at day `i`:
`if (currPrice > peakPrice) peakPrice = currPrice` with
`currPrice = data[i - 1].price`. -/
def peakB (data : List DailyRecord) (i : ℕ) (st : StateB) : ℚ :=
  if st.peak < priceAt data (i - 1) then priceAt data (i - 1) else st.peak

/-- The drawdown from the (updated) peak at day `i`:
`dd = peakPrice > 0 ? (peakPrice - currPrice) / peakPrice : 0`. -/
def ddB (data : List DailyRecord) (i : ℕ) (st : StateB) : ℚ :=
  if 0 < peakB data i st then
    (peakB data i st - priceAt data (i - 1)) / peakB data i st
  else 0

/-- One iteration of the V2 signal loop at day `i`: lookback guard,
trailing-stop check (which forces an exit and `continue`s, skipping the
momentum chain), then the entry / exit / hold chain. Returns the day's
signal and the updated accumulator state. -/
def stepB (trailingStopPct : ℚ) (data : List DailyRecord) (i : ℕ)
    (st : StateB) : ℕ × StateB :=
  if i < minLookbackB then (0, st)
  else if st.inPos then
    if trailingStopPct < ddB data i st then (0, ⟨peakB data i st, false⟩)
    else if momentumB data i = 0 then (0, ⟨peakB data i st, false⟩)
    else (1, ⟨peakB data i st, true⟩)
  else if momentumB data i = 1 then (1, ⟨priceAt data (i - 1), true⟩)
  else (0, st)

/-- Accumulator state entering day `i` of the V2 signal loop
(`peakPrice = 0`, `inPosition = false` initially). -/
def stateB (trailingStopPct : ℚ) (data : List DailyRecord) : ℕ → StateB
  | 0 => ⟨0, false⟩
  | i + 1 => (stepB trailingStopPct data i (stateB trailingStopPct data i)).2

/-- V2 signal at day `i` (`signals[i]` of the V2 engine). -/
def signalB (trailingStopPct : ℚ) (data : List DailyRecord) (i : ℕ) : ℕ :=
  (stepB trailingStopPct data i (stateB trailingStopPct data i)).1

/-- V2 engine: guard, signals, simulation (the simulator is byte-for-byte
the same as variant A's). -/
def runBacktestB (data : List DailyRecord) (trailingStopPct : ℚ) :
    Option (List HistRow) :=
  if data.length < 2 then none
  else some (history (signalB trailingStopPct data) data)

/-! ### Metrics calculator (identical in both variants) -/

/-- A daily return: `prev > 0 ? (curr - prev) / prev : 0`. -/
def dailyReturn (prev curr : ℚ) : ℚ :=
  if 0 < prev then (curr - prev) / prev else 0

/-- The list of daily returns of an equity history (`returns` in
`computeMetrics`): one entry per consecutive pair of rows. -/
def returnsOf (history : List HistRow) : List ℚ :=
  (List.range (history.length - 1)).map (fun i =>
    dailyReturn ((history.getD i default).equity)
      ((history.getD (i + 1) default).equity))

/-- `totalReturn = history[history.length - 1].equity / history[0].equity - 1`. -/
def totalReturnOf (history : List HistRow) : ℚ :=
  (history.getD (history.length - 1) default).equity /
    (history.getD 0 default).equity - 1

/-- `meanRet = returns.reduce((a, b) => a + b, 0) / returns.length`. -/
def meanRetOf (history : List HistRow) : ℚ :=
  (returnsOf history).foldl (· + ·) 0 / ((returnsOf history).length : ℚ)

/-- `variance = returns.reduce((a, r) => a + (r - meanRet)^2, 0) /
returns.length`. -/
def varianceOf (history : List HistRow) : ℚ :=
  (returnsOf history).foldl (fun a r => a + (r - meanRetOf history) ^ 2) 0 /
    ((returnsOf history).length : ℚ)

/-- `vol = Math.sqrt(variance) * Math.sqrt(365)`. -/
noncomputable def volOf (history : List HistRow) : ℝ :=
  Real.sqrt ((varianceOf history : ℚ) : ℝ) * Real.sqrt 365

/-- `annReturn = Math.pow(1 + totalReturn, 365 / days) - 1` with
`days = history.length`. -/
noncomputable def annReturnOf (history : List HistRow) : ℝ :=
  (1 + (totalReturnOf history : ℝ)) ^ ((365 : ℝ) / (history.length : ℝ)) - 1

/-- `sharpe = vol > 0 ? annReturn / vol : 0`. -/
noncomputable def sharpeOf (history : List HistRow) : ℝ :=
  if 0 < volOf history then annReturnOf history / volOf history else 0

/-- The drawdown of one row against the running peak:
`peak > 0 ? (peak - equity) / peak : 0`. -/
def drawdownOf (peak equity : ℚ) : ℚ :=
  if 0 < peak then (peak - equity) / peak else 0

/-- One step of the max-drawdown loop, carrying `(peak, maxDD)`. -/
def ddStep (pm : ℚ × ℚ) (h : HistRow) : ℚ × ℚ :=
  let peak := if pm.1 < h.equity then h.equity else pm.1
  let dd := drawdownOf peak h.equity
  (peak, if pm.2 < dd then dd else pm.2)

/-- `maxDD` after the drawdown loop over the whole history. -/
def maxDDOf (history : List HistRow) : ℚ :=
  (history.foldl ddStep (0, 0)).2

/-- One step of the trade-accounting loop, carrying
`(inTrade, entryEq, trades)`: entry on signal `1` while flat, exit on
signal `0` while in a trade, pushing `equity / entryEq - 1`. -/
def tradesStep (acc : Bool × ℚ × List ℚ) (h : HistRow) : Bool × ℚ × List ℚ :=
  if h.signal = 1 ∧ acc.1 = false then (true, h.equity, acc.2.2)
  else if h.signal = 0 ∧ acc.1 = true then
    (false, acc.2.1, acc.2.2 ++ [h.equity / acc.2.1 - 1])
  else acc

/-- The list of closed-trade returns of an equity history. -/
def tradesOf (history : List HistRow) : List ℚ :=
  (history.foldl tradesStep (false, 0, [])).2.2

/-- `winRate = trades.length > 0 ?
trades.filter(t => t > 0).length / trades.length : 0`. -/
def winRateOf (history : List HistRow) : ℚ :=
  if 0 < (tradesOf history).length then
    (((tradesOf history).filter (fun t => 0 < t)).length : ℚ) /
      ((tradesOf history).length : ℚ)
  else 0

/-- The numeric metrics record assembled by `computeMetrics` (the engine
then formats these as percentage strings for display, which is
presentation-layer work). -/
structure Metrics where
  totalReturn : ℚ
  annualReturn : ℝ
  volatility : ℝ
  sharpe : ℝ
  maxDrawdown : ℚ
  winRate : ℚ
  tradeCount : ℕ

/-- `computeMetrics(history)`: empty result (`none`) on fewer than 2
points, otherwise the metrics record. -/
noncomputable def computeMetrics (history : List HistRow) : Option Metrics :=
  if history.length < 2 then none
  else some
    { totalReturn := totalReturnOf history
      annualReturn := annReturnOf history
      volatility := volOf history
      sharpe := sharpeOf history
      maxDrawdown := maxDDOf history
      winRate := winRateOf history
      tradeCount := (tradesOf history).length }

/-! ### Finiteness-tracking division (for the division-by-zero-guard
claim): a JavaScript division whose denominator is zero produces a
non-finite value (`NaN` or `±Infinity`), modelled as `none`. -/

/-- An unguarded JavaScript division: `none` models the non-finite result
produced when the denominator is `0`. -/
def jsDiv (a b : ℚ) : Option ℚ := if b = 0 then none else some (a / b)

/-- `jsDiv` over the reals (for the volatility denominator). -/
noncomputable def jsDivR (a b : ℝ) : Option ℝ :=
  if b = 0 then none else some (a / b)

/-- The daily-return ratio site as written in `computeMetrics`:
the division is wrapped in the guard `prev > 0 ? ... : 0`. -/
def retSite (prev curr : ℚ) : Option ℚ :=
  if 0 < prev then jsDiv (curr - prev) prev else some 0

/-- The drawdown ratio site as written in `computeMetrics`: the division
is wrapped in the guard `peak > 0 ? ... : 0`. -/
def ddSite (peak equity : ℚ) : Option ℚ :=
  if 0 < peak then jsDiv (peak - equity) peak else some 0

/-- The Sharpe ratio site as written in `computeMetrics`: the division is
wrapped in the guard `vol > 0 ? ... : 0`. -/
noncomputable def sharpeSite (vol ann : ℝ) : Option ℝ :=
  if 0 < vol then jsDivR ann vol else some 0

/-- The rolling-average ratio site of the signal generators: the code
divides `recentSum` (or `prevSum`, or `smaSum`) by the window length with
NO guard. -/
def avgSite (data : List DailyRecord) (w i : ℕ) : Option ℚ :=
  jsDiv (sumRev data (i - w) w) (w : ℚ)

/-! ### Spec-side definitions, for comparison with the code -/

/-- Modelled from the spec: the population variance of a list of daily
returns, "divide by N, not N-1". -/
def popVariance (l : List ℚ) : ℚ :=
  (l.map (fun r => (r - l.sum / (l.length : ℚ)) ^ 2)).sum / (l.length : ℚ)

/-- Modelled from the spec: the population standard deviation of a list
of daily returns. -/
noncomputable def popStdDev (l : List ℚ) : ℝ :=
  Real.sqrt ((popVariance l : ℚ) : ℝ)

/-- Modelled from the spec: the number of `1 → 0` transitions between
consecutive entries of a signal list (completed trades). -/
def descents : List ℕ → ℕ
  | a :: b :: rest => (if a = 1 ∧ b = 0 then 1 else 0) + descents (b :: rest)
  | _ => 0

/-- Modelled from the spec: the running maximum of the prices observed
while in a position that was entered at day `e`, up to (excluding) day
`i`: the price observed at day `j` is `price[j - 1]`, so this is
`max { price[j-1] | e ≤ j ≤ i-1 }` (at entry, `peakPrice := price[e-1]`). -/
def entryPeak (data : List DailyRecord) (e i : ℕ) : ℚ :=
  ((List.range (i - 1 - e)).map (fun k => priceAt data (e + k))).foldl
    max (priceAt data (e - 1))

/-! ## Helper lemmas -/

theorem minLookbackB_eq : minLookbackB = 28 := rfl

theorem history_getD (sig : ℕ → ℕ) (data : List DailyRecord) (i : ℕ)
    (hi : i < data.length) :
    (history sig data).getD i default = historyRow sig data i := by
  have hlen : i < (history sig data).length := by
    simpa [history] using hi
  rw [List.getD_eq_getElem _ _ hlen]
  simp [history]

theorem portState_congr (sig sig' : ℕ → ℕ) (data : List DailyRecord) (i : ℕ)
    (h : ∀ j, j < i → sig j = sig' j) :
    portState sig data i = portState sig' data i := by
  induction i with
  | zero => rfl
  | succ j ih =>
    have hj : ∀ k, k < j → sig k = sig' k := fun k hk => h k (Nat.lt_succ_of_lt hk)
    simp only [portState, ih hj, h j (Nat.lt_succ_self j)]

theorem sumRev_congr (data data' : List DailyRecord) (lo len : ℕ)
    (h : ∀ k, k < len → data.getD (lo + k) default = data'.getD (lo + k) default) :
    sumRev data lo len = sumRev data' lo len := by
  unfold sumRev
  congr 1
  refine List.map_congr_left (fun k hk => ?_)
  rw [List.mem_range] at hk
  simp only [revenueAt, h k hk]

theorem sumPrice_congr (data data' : List DailyRecord) (lo len : ℕ)
    (h : ∀ k, k < len → data.getD (lo + k) default = data'.getD (lo + k) default) :
    sumPrice data lo len = sumPrice data' lo len := by
  unfold sumPrice
  congr 1
  refine List.map_congr_left (fun k hk => ?_)
  rw [List.mem_range] at hk
  simp only [priceAt, h k hk]

theorem foldl_add_map (f : ℚ → ℚ) (l : List ℚ) (init : ℚ) :
    l.foldl (fun a r => a + f r) init = init + (l.map f).sum := by
  induction l generalizing init with
  | nil => simp
  | cons x t ih => simp [ih, add_assoc]

theorem foldl_add_id (l : List ℚ) :
    l.foldl (· + ·) 0 = l.sum := by
  have := foldl_add_map id l 0
  simpa using this

theorem ite_lt_max (a b : ℚ) : (if a < b then b else a) = max a b := by
  by_cases h : a < b
  · rw [if_pos h, max_eq_right h.le]
  · rw [if_neg h, max_eq_left (le_of_not_lt h)]

theorem entryPeak_base (data : List DailyRecord) (e : ℕ) :
    entryPeak data e (e + 1) = priceAt data (e - 1) := by
  have h0 : e + 1 - 1 - e = 0 := by omega
  rw [entryPeak, h0]
  rfl

theorem entryPeak_succ (data : List DailyRecord) (e i : ℕ) (he : e < i) :
    entryPeak data e (i + 1) = max (entryPeak data e i) (priceAt data (i - 1)) := by
  unfold entryPeak
  have h1 : i + 1 - 1 - e = (i - 1 - e) + 1 := by omega
  have h2 : e + (i - 1 - e) = i - 1 := by omega
  rw [h1, List.range_succ, List.map_append, List.foldl_append]
  simp only [List.map_cons, List.map_nil, List.foldl_cons, List.foldl_nil, h2]

theorem stepB_lookback (trailingStopPct : ℚ) (data : List DailyRecord)
    (i : ℕ) (st : StateB) (h : i < minLookbackB) :
    stepB trailingStopPct data i st = (0, st) := by
  rw [stepB, if_pos h]

theorem stepB_stop (trailingStopPct : ℚ) (data : List DailyRecord) (i : ℕ)
    (st : StateB) (h : ¬i < minLookbackB) (hin : st.inPos = true)
    (hdd : trailingStopPct < ddB data i st) :
    stepB trailingStopPct data i st = (0, ⟨peakB data i st, false⟩) := by
  rw [stepB, if_neg h, if_pos hin, if_pos hdd]

theorem stepB_exit (trailingStopPct : ℚ) (data : List DailyRecord) (i : ℕ)
    (st : StateB) (h : ¬i < minLookbackB) (hin : st.inPos = true)
    (hdd : ¬trailingStopPct < ddB data i st) (hm : momentumB data i = 0) :
    stepB trailingStopPct data i st = (0, ⟨peakB data i st, false⟩) := by
  rw [stepB, if_neg h, if_pos hin, if_neg hdd, if_pos hm]

theorem stepB_hold (trailingStopPct : ℚ) (data : List DailyRecord) (i : ℕ)
    (st : StateB) (h : ¬i < minLookbackB) (hin : st.inPos = true)
    (hdd : ¬trailingStopPct < ddB data i st) (hm : ¬momentumB data i = 0) :
    stepB trailingStopPct data i st = (1, ⟨peakB data i st, true⟩) := by
  rw [stepB, if_neg h, if_pos hin, if_neg hdd, if_neg hm]

theorem stepB_enter (trailingStopPct : ℚ) (data : List DailyRecord) (i : ℕ)
    (st : StateB) (h : ¬i < minLookbackB) (hin : st.inPos = false)
    (hm : momentumB data i = 1) :
    stepB trailingStopPct data i st = (1, ⟨priceAt data (i - 1), true⟩) := by
  rw [stepB, if_neg h, if_neg (by rw [hin]; exact Bool.false_ne_true), if_pos hm]

theorem stepB_flat (trailingStopPct : ℚ) (data : List DailyRecord) (i : ℕ)
    (st : StateB) (h : ¬i < minLookbackB) (hin : st.inPos = false)
    (hm : ¬momentumB data i = 1) :
    stepB trailingStopPct data i st = (0, st) := by
  rw [stepB, if_neg h, if_neg (by rw [hin]; exact Bool.false_ne_true), if_neg hm]

/-- While `inPosition` holds entering day `i`, there is an entry day `e`
(at which the engine was flat, the signal fired, and
`peakPrice := price[e-1]`), the position has been held with signal `1`
ever since, and the carried `peakPrice` is the running maximum of the
observed prices since entry. -/
theorem stateB_inPos_entry (trailingStopPct : ℚ) (data : List DailyRecord) :
    ∀ i, (stateB trailingStopPct data i).inPos = true →
      ∃ e, minLookbackB ≤ e ∧ e < i ∧
        (stateB trailingStopPct data e).inPos = false ∧
        (∀ j, e ≤ j → j < i → signalB trailingStopPct data j = 1 ∧
          (stateB trailingStopPct data (j + 1)).inPos = true) ∧
        (stateB trailingStopPct data i).peak = entryPeak data e i := by
  intro i
  induction i with
  | zero => intro h; simp [stateB] at h
  | succ i ih =>
    intro h
    by_cases h28 : i < minLookbackB
    · rw [stateB, stepB_lookback _ _ _ _ h28] at h
      obtain ⟨e, he1, he2, -, -, -⟩ := ih h
      omega
    · by_cases hin : (stateB trailingStopPct data i).inPos = true
      · obtain ⟨e, he1, he2, he3, he4, he5⟩ := ih hin
        by_cases hdd : trailingStopPct < ddB data i (stateB trailingStopPct data i)
        · rw [stateB, stepB_stop _ _ _ _ h28 hin hdd] at h
          exact absurd h (by simp)
        · by_cases hm : momentumB data i = 0
          · rw [stateB, stepB_exit _ _ _ _ h28 hin hdd hm] at h
            exact absurd h (by simp)
          · refine ⟨e, he1, Nat.lt_succ_of_lt he2, he3, ?_, ?_⟩
            · intro j hj1 hj2
              rcases Nat.lt_or_ge j i with hji | hji
              · exact he4 j hj1 hji
              · have hji' : j = i := by omega
                subst hji'
                constructor
                · rw [signalB, stepB_hold _ _ _ _ h28 hin hdd hm]
                · rw [stateB, stepB_hold _ _ _ _ h28 hin hdd hm]
            · rw [stateB, stepB_hold _ _ _ _ h28 hin hdd hm]
              show peakB data i (stateB trailingStopPct data i) = _
              rw [peakB, ite_lt_max, he5, entryPeak_succ data e i he2]
      · have hin' : (stateB trailingStopPct data i).inPos = false := by
          cases hx : (stateB trailingStopPct data i).inPos
          · rfl
          · exact absurd hx hin
        by_cases hm : momentumB data i = 1
        · refine ⟨i, Nat.le_of_not_lt h28, Nat.lt_succ_self i, hin', ?_, ?_⟩
          · intro j hj1 hj2
            have hji : j = i := by omega
            subst hji
            constructor
            · rw [signalB, stepB_enter _ _ _ _ h28 hin' hm]
            · rw [stateB, stepB_enter _ _ _ _ h28 hin' hm]
          · rw [stateB, stepB_enter _ _ _ _ h28 hin' hm, entryPeak_base]
        · rw [stateB, stepB_flat _ _ _ _ h28 hin' hm] at h
          exact absurd h (by rw [hin']; exact Bool.false_ne_true)

theorem meanRet_eq (hist : List HistRow) :
    meanRetOf hist = (returnsOf hist).sum / ((returnsOf hist).length : ℚ) := by
  rw [meanRetOf, foldl_add_id]

theorem variance_eq (hist : List HistRow) :
    varianceOf hist = popVariance (returnsOf hist) := by
  rw [varianceOf, popVariance,
    foldl_add_map (fun r => (r - meanRetOf hist) ^ 2) _ 0, zero_add, meanRet_eq]

theorem volOf_nonneg (hist : List HistRow) : 0 ≤ volOf hist := by
  rw [volOf]
  exact mul_nonneg (Real.sqrt_nonneg _) (Real.sqrt_nonneg _)

theorem descents_cons_zero (l : List ℕ) : descents (0 :: l) = descents l := by
  cases l with
  | nil => rfl
  | cons b t => simp [descents]

theorem tradesFold_length (l : List HistRow) :
    ∀ (b : Bool) (e : ℚ) (acc : List ℚ),
      (∀ h ∈ l, h.signal = 0 ∨ h.signal = 1) →
      ((l.foldl tradesStep (b, e, acc)).2.2).length =
        acc.length + descents ((if b then 1 else 0) :: l.map (fun h => h.signal)) := by
  induction l with
  | nil =>
    intro b e acc _
    cases b <;> simp [descents]
  | cons h t ih =>
    intro b e acc hbin
    have hbt : ∀ x ∈ t, x.signal = 0 ∨ x.signal = 1 :=
      fun x hx => hbin x (List.mem_cons_of_mem h hx)
    rcases hbin h (List.mem_cons_self h t) with h0 | h1
    · cases b with
      | false =>
        have hstep : tradesStep (false, e, acc) h = (false, e, acc) := by
          simp [tradesStep, h0]
        rw [List.foldl_cons, hstep, ih false e acc hbt]
        simp [descents, h0]
      | true =>
        have hstep : tradesStep (true, e, acc) h =
            (false, e, acc ++ [h.equity / e - 1]) := by
          simp [tradesStep, h0]
        rw [List.foldl_cons, hstep, ih false e _ hbt]
        simp [descents, h0]
        omega
    · cases b with
      | false =>
        have hstep : tradesStep (false, e, acc) h = (true, h.equity, acc) := by
          simp [tradesStep, h1]
        rw [List.foldl_cons, hstep, ih true h.equity acc hbt]
        simp [descents, h1]
      | true =>
        have hstep : tradesStep (true, e, acc) h = (true, e, acc) := by
          simp [tradesStep, h1]
        rw [List.foldl_cons, hstep, ih true e acc hbt]
        simp [descents, h1]

theorem signalA_congr (data data' : List DailyRecord) (windowDays smaDays : ℕ)
    (hw : 0 < windowDays) :
    ∀ i, (∀ j, j < i → data.getD j default = data'.getD j default) →
      signalA data windowDays smaDays i = signalA data' windowDays smaDays i := by
  intro i
  induction i with
  | zero =>
    intro _
    have h0 : 0 < minLookbackA windowDays smaDays := by
      unfold minLookbackA; omega
    rw [signalA, if_pos h0, signalA, if_pos h0]
  | succ i ih =>
    intro h
    by_cases hlt : i + 1 < minLookbackA windowDays smaDays
    · rw [signalA, if_pos hlt, signalA, if_pos hlt]
    · have hml : minLookbackA windowDays smaDays ≤ i + 1 := Nat.le_of_not_lt hlt
      have h2w : 2 * windowDays ≤ i + 1 := le_trans (le_max_left _ _) hml
      have hsle : smaDays ≤ i + 1 := le_trans (le_max_right _ _) hml
      have hr : recentAvgA data windowDays (i + 1) =
          recentAvgA data' windowDays (i + 1) := by
        unfold recentAvgA
        rw [sumRev_congr data data' _ _ (fun k hk => h _ (by omega))]
      have hp : prevAvgA data windowDays (i + 1) =
          prevAvgA data' windowDays (i + 1) := by
        unfold prevAvgA
        rw [sumRev_congr data data' _ _ (fun k hk => h _ (by omega))]
      have hsma : smaPriceA data smaDays (i + 1) =
          smaPriceA data' smaDays (i + 1) := by
        unfold smaPriceA
        rw [sumPrice_congr data data' _ _ (fun k hk => h _ (by omega))]
      have hcurr : priceAt data (i + 1 - 1) = priceAt data' (i + 1 - 1) := by
        show (data.getD i default).price = (data'.getD i default).price
        rw [h i (Nat.lt_succ_self i)]
      have hup : uptrendA data smaDays (i + 1) = uptrendA data' smaDays (i + 1) := by
        unfold uptrendA
        rw [hcurr, hsma]
      have hprev : signalA data windowDays smaDays i =
          signalA data' windowDays smaDays i :=
        ih (fun j hj => h j (Nat.lt_succ_of_lt hj))
      rw [signalA, if_neg hlt, signalA, if_neg hlt]
      simp only [signalABody, hr, hp, hup, hprev]

theorem votesB_congr (data data' : List DailyRecord) (i : ℕ)
    (h28 : minLookbackB ≤ i)
    (h : ∀ j, j < i → data.getD j default = data'.getD j default) :
    votesB data i = votesB data' i := by
  have hcmp : ∀ w : ℕ, 0 < w → 2 * w ≤ i →
      (sumRev data (i - w) w / (w : ℚ) > sumRev data (i - 2 * w) w / (w : ℚ)) =
      (sumRev data' (i - w) w / (w : ℚ) >
        sumRev data' (i - 2 * w) w / (w : ℚ)) := by
    intro w hw0 h2w
    rw [sumRev_congr data data' _ _ (fun k hk => h _ (by omega)),
      sumRev_congr data data' _ _ (fun k hk => h _ (by omega))]
  have h3 := hcmp 3 (by omega) (by rw [minLookbackB_eq] at h28; omega)
  have h7 := hcmp 7 (by omega) (by rw [minLookbackB_eq] at h28; omega)
  have h14 := hcmp 14 (by omega) (by rw [minLookbackB_eq] at h28; omega)
  simp only [votesB, windowsB, List.foldl_cons, List.foldl_nil, h3, h7, h14]

theorem stepB_congr (trailingStopPct : ℚ) (data data' : List DailyRecord)
    (i : ℕ) (h : ∀ j, j < i → data.getD j default = data'.getD j default)
    (st : StateB) :
    stepB trailingStopPct data i st = stepB trailingStopPct data' i st := by
  by_cases h28 : i < minLookbackB
  · rw [stepB_lookback _ _ _ _ h28, stepB_lookback _ _ _ _ h28]
  · have h28' : minLookbackB ≤ i := Nat.le_of_not_lt h28
    have hcurr : priceAt data (i - 1) = priceAt data' (i - 1) := by
      unfold priceAt
      rw [h (i - 1) (by rw [minLookbackB_eq] at h28'; omega)]
    have hv : votesB data i = votesB data' i := votesB_congr data data' i h28' h
    have hm : momentumB data i = momentumB data' i := by
      rw [momentumB, momentumB, hv]
    have hpk : peakB data i st = peakB data' i st := by
      rw [peakB, peakB, hcurr]
    have hdd : ddB data i st = ddB data' i st := by
      rw [ddB, ddB, hpk, hcurr]
    rw [stepB, stepB, if_neg h28, if_neg h28, hm, hpk, hdd, hcurr]

theorem stateB_congr (trailingStopPct : ℚ) (data data' : List DailyRecord) :
    ∀ i, (∀ j, j < i → data.getD j default = data'.getD j default) →
      stateB trailingStopPct data i = stateB trailingStopPct data' i := by
  intro i
  induction i with
  | zero => intro _; rfl
  | succ i ih =>
    intro h
    have hi := ih (fun j hj => h j (Nat.lt_succ_of_lt hj))
    rw [stateB, stateB, hi, stepB_congr trailingStopPct data data' i
      (fun j hj => h j (Nat.lt_succ_of_lt hj))]

/-! ## Claim theorems -/

/-- C1: Variant A signal rule. For every series and parameters
`windowDays`, `smaDays` (positive, as supplied by the sliders) and every
index `i ≥ minLookback`: the signal at `i` is `1` if the mean revenue
over the `windowDays` days ending at `i-1` exceeds the mean over the
`windowDays` days before that and the uptrend test
`price[i-1] ≥ 0.95 × smaPrice` passes; it is `0` if the recent revenue
mean is strictly below the previous one or the uptrend test fails; and on
an exact tie with the uptrend holding it carries forward the previous
day's signal (hysteresis). -/
theorem signalA_rule (data : List DailyRecord) (windowDays smaDays i : ℕ)
    (hw : 0 < windowDays) (_hs : 0 < smaDays)
    (hi : minLookbackA windowDays smaDays ≤ i) :
    (recentAvgA data windowDays i > prevAvgA data windowDays i ∧
        uptrendA data smaDays i →
      signalA data windowDays smaDays i = 1) ∧
    (recentAvgA data windowDays i < prevAvgA data windowDays i ∨
        ¬uptrendA data smaDays i →
      signalA data windowDays smaDays i = 0) ∧
    (recentAvgA data windowDays i = prevAvgA data windowDays i ∧
        uptrendA data smaDays i →
      signalA data windowDays smaDays i =
        signalA data windowDays smaDays (i - 1)) := by
  have h2 : 2 ≤ i := le_trans (le_trans (by omega) (le_max_left _ _)) hi
  obtain ⟨j, rfl⟩ : ∃ j, i = j + 1 := ⟨i - 1, by omega⟩
  have hnot : ¬(j + 1 < minLookbackA windowDays smaDays) := by omega
  refine ⟨fun h => ?_, fun h => ?_, fun h => ?_⟩
  · rw [signalA, if_neg hnot, signalABody, if_pos h]
  · have hc1 : ¬(recentAvgA data windowDays (j + 1) >
        prevAvgA data windowDays (j + 1) ∧ uptrendA data smaDays (j + 1)) := by
      rcases h with h | h
      · exact fun hc => absurd hc.1 (lt_asymm h)
      · exact fun hc => h hc.2
    rw [signalA, if_neg hnot, signalABody, if_neg hc1, if_pos h]
  · have hc1 : ¬(recentAvgA data windowDays (j + 1) >
        prevAvgA data windowDays (j + 1) ∧ uptrendA data smaDays (j + 1)) := by
      rw [h.1]
      exact fun hc => lt_irrefl _ hc.1
    have hc2 : ¬(recentAvgA data windowDays (j + 1) <
        prevAvgA data windowDays (j + 1) ∨ ¬uptrendA data smaDays (j + 1)) := by
      rw [h.1]
      push_neg
      exact ⟨le_refl _, h.2⟩
    rw [signalA, if_neg hnot, signalABody, if_neg hc1, if_neg hc2,
      Nat.add_sub_cancel]

/-- Witness for C1: on a 3-day series with rising revenue and flat price,
`windowDays = smaDays = 1`, the rule fires at `i = 2` and yields signal
`1`. -/
theorem signalA_rule_witness :
    0 < 1 ∧ minLookbackA 1 1 ≤ 2 ∧
      signalA [⟨"a", 1, 1⟩, ⟨"b", 1, 2⟩, ⟨"c", 1, 3⟩] 1 1 2 = 1 :=
  ⟨by decide, by decide,
    (signalA_rule [⟨"a", 1, 1⟩, ⟨"b", 1, 2⟩, ⟨"c", 1, 3⟩] 1 1 2
      (by decide) (by decide) (by decide)).1
      (by with_unfolding_all decide)⟩

/-- C2: one-day execution lag in the simulator (shared by both variants).
At day `i+1` the portfolio converts all cash to units at day `i+1`'s
price exactly when `signal[i] = 1` and it is flat, converts all units to
cash exactly when `signal[i] = 0` and units are held, and is otherwise
unchanged; the day's position change depends only on signals up to index
`i` (so never on the day's own signal: `sig'` is arbitrary from `i+1`
on); and the emitted strategy equity is `cash + units × price` rounded to
2 decimals. -/
theorem simulate_execution_lag (sig sig' : ℕ → ℕ) (data : List DailyRecord)
    (i : ℕ) (hagree : ∀ j, j ≤ i → sig j = sig' j)
    (hlen : i + 1 < data.length) :
    portState sig' data (i + 1) =
      (if sig i = 1 ∧ (portState sig data i).units = 0 then
        ⟨0, (portState sig data i).cash / priceAt data (i + 1)⟩
      else if sig i = 0 ∧ 0 < (portState sig data i).units then
        ⟨(portState sig data i).units * priceAt data (i + 1), 0⟩
      else portState sig data i) ∧
    ((history sig' data).getD (i + 1) default).equity =
      round2 ((portState sig' data (i + 1)).cash +
        (portState sig' data (i + 1)).units * priceAt data (i + 1)) := by
  have hst : portState sig' data i = portState sig data i :=
    (portState_congr sig sig' data i (fun j hj => hagree j (le_of_lt hj))).symm
  have hsig : sig' i = sig i := (hagree i le_rfl).symm
  constructor
  · show tradeStep (sig' i) (priceAt data (i + 1)) (portState sig' data i) = _
    rw [hst, hsig, tradeStep]
  · rw [history_getD sig' data (i + 1) hlen]
    rfl

/-- C6: signal-series invariant (both variants). Signals are `0` below
`minLookback`, and the signal at index `i` is a function of the records
at indices `< i` only: two runs on series that agree below `i` (records
at indices `≥ i` arbitrary) produce the same `signal[i]`.
(`windowDays > 0` as supplied by the slider; with `windowDays = 0` the
original code would read `data[-1]` and crash.) -/
theorem signals_no_lookahead (data data' : List DailyRecord)
    (windowDays smaDays : ℕ) (trailingStopPct : ℚ) (i : ℕ)
    (hw : 0 < windowDays)
    (hagree : ∀ j, j < i → data.getD j default = data'.getD j default) :
    (i < minLookbackA windowDays smaDays →
      signalA data windowDays smaDays i = 0) ∧
    (i < minLookbackB → signalB trailingStopPct data i = 0) ∧
    signalA data windowDays smaDays i = signalA data' windowDays smaDays i ∧
    signalB trailingStopPct data i = signalB trailingStopPct data' i := by
  refine ⟨fun hA => ?_, fun hB => ?_, ?_, ?_⟩
  · cases i with
    | zero => rw [signalA, if_pos hA]
    | succ j => rw [signalA, if_pos hA]
  · rw [signalB, stepB_lookback _ _ _ _ hB]
  · exact signalA_congr data data' windowDays smaDays hw i hagree
  · rw [signalB, signalB, stateB_congr trailingStopPct data data' i hagree,
      stepB_congr trailingStopPct data data' i hagree]

/-- Witness for C6: identical three-day series, `i = 0`. -/
theorem signals_no_lookahead_witness :
    0 < 1 ∧
      ((0 < minLookbackA 1 1 →
        signalA [⟨"a", 1, 1⟩, ⟨"b", 1, 2⟩, ⟨"c", 1, 3⟩] 1 1 0 = 0) ∧
      (0 < minLookbackB →
        signalB 1 [⟨"a", 1, 1⟩, ⟨"b", 1, 2⟩, ⟨"c", 1, 3⟩] 0 = 0) ∧
      signalA [⟨"a", 1, 1⟩, ⟨"b", 1, 2⟩, ⟨"c", 1, 3⟩] 1 1 0 =
        signalA [⟨"a", 1, 1⟩, ⟨"b", 1, 2⟩, ⟨"c", 1, 3⟩] 1 1 0 ∧
      signalB 1 [⟨"a", 1, 1⟩, ⟨"b", 1, 2⟩, ⟨"c", 1, 3⟩] 0 =
        signalB 1 [⟨"a", 1, 1⟩, ⟨"b", 1, 2⟩, ⟨"c", 1, 3⟩] 0) :=
  ⟨by decide,
    signals_no_lookahead [⟨"a", 1, 1⟩, ⟨"b", 1, 2⟩, ⟨"c", 1, 3⟩]
      [⟨"a", 1, 1⟩, ⟨"b", 1, 2⟩, ⟨"c", 1, 3⟩] 1 1 1 0 (by decide)
      (fun j hj => rfl)⟩

/-- C7: portfolio exclusivity. With all input prices positive, at every
day of the simulation either the portfolio is all cash (`cash > 0`,
`units = 0`) or fully invested (`cash = 0`, `units > 0`): exactly one of
`cash = 0` and `units = 0` holds, both are non-negative, and this holds
at every day (in particular after the first cash-to-units transition). -/
theorem portfolio_exclusive (sig : ℕ → ℕ) (data : List DailyRecord)
    (hpos : ∀ j, j < data.length → 0 < priceAt data j) :
    ∀ i, i < data.length →
      (0 < (portState sig data i).cash ∧ (portState sig data i).units = 0) ∨
      ((portState sig data i).cash = 0 ∧ 0 < (portState sig data i).units) := by
  intro i
  induction i with
  | zero =>
    intro _
    left
    exact ⟨by norm_num [portState, initialCapital], rfl⟩
  | succ j ih =>
    intro hj1
    have hj : j < data.length := Nat.lt_of_succ_lt hj1
    have hp : 0 < priceAt data (j + 1) := hpos _ hj1
    rcases ih hj with ⟨hc, hu⟩ | ⟨hc, hu⟩
    · by_cases h1 : sig j = 1
      · right
        rw [portState, tradeStep, if_pos ⟨h1, hu⟩]
        exact ⟨rfl, div_pos hc hp⟩
      · left
        rw [portState, tradeStep, if_neg (fun hcon => h1 hcon.1),
          if_neg (fun hcon => lt_irrefl 0 (hu ▸ hcon.2))]
        exact ⟨hc, hu⟩
    · by_cases h0 : sig j = 0
      · left
        rw [portState, tradeStep, if_neg (fun hcon => lt_irrefl 0 (hcon.2 ▸ hu)),
          if_pos ⟨h0, hu⟩]
        exact ⟨mul_pos hu hp, rfl⟩
      · right
        rw [portState, tradeStep, if_neg (fun hcon => lt_irrefl 0 (hcon.2 ▸ hu)),
          if_neg (fun hcon => h0 hcon.1)]
        exact ⟨hc, hu⟩

/-- Witness for C7: two-day series with positive prices and an always-`1`
signal series (so the buy executes at day 1). -/
theorem portfolio_exclusive_witness :
    (∀ j, j < ([⟨"a", 1, 0⟩, ⟨"b", 2, 0⟩] : List DailyRecord).length →
      0 < priceAt [⟨"a", 1, 0⟩, ⟨"b", 2, 0⟩] j) ∧
      (∀ i, i < ([⟨"a", 1, 0⟩, ⟨"b", 2, 0⟩] : List DailyRecord).length →
        (0 < (portState (fun _ => 1) [⟨"a", 1, 0⟩, ⟨"b", 2, 0⟩] i).cash ∧
          (portState (fun _ => 1) [⟨"a", 1, 0⟩, ⟨"b", 2, 0⟩] i).units = 0) ∨
        ((portState (fun _ => 1) [⟨"a", 1, 0⟩, ⟨"b", 2, 0⟩] i).cash = 0 ∧
          0 < (portState (fun _ => 1) [⟨"a", 1, 0⟩, ⟨"b", 2, 0⟩] i).units)) :=
  ⟨by with_unfolding_all decide,
    portfolio_exclusive (fun _ => 1) [⟨"a", 1, 0⟩, ⟨"b", 2, 0⟩]
      (by with_unfolding_all decide)⟩

/-- C3: Variant B trailing stop. At any day `i ≥ minLookback` entering
which the engine is in a position (prices positive so far), there is an
entry day `e` since which the signal has been `1` continuously, the
updated `peakPrice` is the running maximum of the prices observed since
entry (`entryPeak data e (i+1) = max of price[j-1] for e ≤ j ≤ i`), and
whenever the drawdown `(peakPrice - price[i-1]) / peakPrice` strictly
exceeds `trailingStopPct`, the day's signal is `0` and the position state
resets to flat — regardless of the day's momentum majority vote (no
assumption on the votes is used). -/
theorem signalB_trailing_stop (trailingStopPct : ℚ) (data : List DailyRecord)
    (i : ℕ) (hlb : minLookbackB ≤ i)
    (hin : (stateB trailingStopPct data i).inPos = true)
    (hpos : ∀ j, j < i → 0 < priceAt data j) :
    ∃ e, minLookbackB ≤ e ∧ e < i ∧
      (stateB trailingStopPct data e).inPos = false ∧
      (∀ j, e ≤ j → j < i → signalB trailingStopPct data j = 1) ∧
      max (stateB trailingStopPct data i).peak (priceAt data (i - 1)) =
        entryPeak data e (i + 1) ∧
      (trailingStopPct <
          (max (stateB trailingStopPct data i).peak (priceAt data (i - 1)) -
              priceAt data (i - 1)) /
            max (stateB trailingStopPct data i).peak (priceAt data (i - 1)) →
        signalB trailingStopPct data i = 0 ∧
          (stateB trailingStopPct data (i + 1)).inPos = false) := by
  obtain ⟨e, he1, he2, he3, he4, he5⟩ := stateB_inPos_entry trailingStopPct data i hin
  have h28 : ¬i < minLookbackB := Nat.not_lt.mpr hlb
  have hpk : peakB data i (stateB trailingStopPct data i) =
      max (stateB trailingStopPct data i).peak (priceAt data (i - 1)) := by
    rw [peakB, ite_lt_max]
  have hpkpos : 0 < peakB data i (stateB trailingStopPct data i) := by
    rw [hpk]
    exact lt_max_of_lt_right (hpos (i - 1) (by omega))
  have hddval : ddB data i (stateB trailingStopPct data i) =
      (max (stateB trailingStopPct data i).peak (priceAt data (i - 1)) -
          priceAt data (i - 1)) /
        max (stateB trailingStopPct data i).peak (priceAt data (i - 1)) := by
    rw [ddB, if_pos hpkpos, hpk]
  refine ⟨e, he1, he2, he3, fun j hj1 hj2 => (he4 j hj1 hj2).1, ?_, fun hdd => ?_⟩
  · rw [he5, entryPeak_succ data e i he2]
  · rw [← hddval] at hdd
    constructor
    · rw [signalB, stepB_stop _ _ _ _ h28 hin hdd]
    · rw [stateB, stepB_stop _ _ _ _ h28 hin hdd]

/-- Witness for C3: a 32-day series with strictly rising revenue and flat
positive price enters at day 28; at day `i = 29` the engine is in a
position and the theorem applies. -/
theorem signalB_trailing_stop_witness :
    minLookbackB ≤ 29 ∧
      (stateB (1 / 2) ((List.range 32).map
          (fun j => ⟨"", 1, (j : ℚ)⟩)) 29).inPos = true ∧
      (∀ j, j < 29 →
        0 < priceAt ((List.range 32).map (fun j => ⟨"", 1, (j : ℚ)⟩)) j) ∧
      (∃ e, minLookbackB ≤ e ∧ e < 29 ∧
        (stateB (1 / 2) ((List.range 32).map
            (fun j => ⟨"", 1, (j : ℚ)⟩)) e).inPos = false ∧
        (∀ j, e ≤ j → j < 29 →
          signalB (1 / 2) ((List.range 32).map
            (fun j => ⟨"", 1, (j : ℚ)⟩)) j = 1) ∧
        max (stateB (1 / 2) ((List.range 32).map
              (fun j => ⟨"", 1, (j : ℚ)⟩)) 29).peak
            (priceAt ((List.range 32).map (fun j => ⟨"", 1, (j : ℚ)⟩)) (29 - 1)) =
          entryPeak ((List.range 32).map (fun j => ⟨"", 1, (j : ℚ)⟩)) e (29 + 1) ∧
        ((1 : ℚ) / 2 <
            (max (stateB (1 / 2) ((List.range 32).map
                  (fun j => ⟨"", 1, (j : ℚ)⟩)) 29).peak
                (priceAt ((List.range 32).map
                  (fun j => ⟨"", 1, (j : ℚ)⟩)) (29 - 1)) -
              priceAt ((List.range 32).map
                (fun j => ⟨"", 1, (j : ℚ)⟩)) (29 - 1)) /
              max (stateB (1 / 2) ((List.range 32).map
                  (fun j => ⟨"", 1, (j : ℚ)⟩)) 29).peak
                (priceAt ((List.range 32).map
                  (fun j => ⟨"", 1, (j : ℚ)⟩)) (29 - 1)) →
          signalB (1 / 2) ((List.range 32).map
            (fun j => ⟨"", 1, (j : ℚ)⟩)) 29 = 0 ∧
          (stateB (1 / 2) ((List.range 32).map
              (fun j => ⟨"", 1, (j : ℚ)⟩)) (29 + 1)).inPos = false)) :=
  ⟨by decide, by with_unfolding_all decide, by with_unfolding_all decide,
    signalB_trailing_stop (1 / 2)
      ((List.range 32).map (fun j => ⟨"", 1, (j : ℚ)⟩)) 29
      (by decide) (by with_unfolding_all decide)
      (by with_unfolding_all decide)⟩

/-- Witness for C2: concrete two-day series, both signal series constantly
`0`, `i = 0`. -/
theorem simulate_execution_lag_witness :
    (∀ j, j ≤ 0 → (fun _ => 0) j = (fun _ => 0) j) ∧
      (0 + 1 < ([⟨"a", 2, 0⟩, ⟨"b", 4, 0⟩] : List DailyRecord).length ∧
        (portState (fun _ => 0) [⟨"a", 2, 0⟩, ⟨"b", 4, 0⟩] (0 + 1) =
          (if (fun _ => 0) 0 = 1 ∧
              (portState (fun _ => 0) [⟨"a", 2, 0⟩, ⟨"b", 4, 0⟩] 0).units = 0 then
            ⟨0, (portState (fun _ => 0) [⟨"a", 2, 0⟩, ⟨"b", 4, 0⟩] 0).cash /
              priceAt [⟨"a", 2, 0⟩, ⟨"b", 4, 0⟩] (0 + 1)⟩
          else if (fun _ => 0) 0 = 0 ∧
              0 < (portState (fun _ => 0) [⟨"a", 2, 0⟩, ⟨"b", 4, 0⟩] 0).units then
            ⟨(portState (fun _ => 0) [⟨"a", 2, 0⟩, ⟨"b", 4, 0⟩] 0).units *
              priceAt [⟨"a", 2, 0⟩, ⟨"b", 4, 0⟩] (0 + 1), 0⟩
          else portState (fun _ => 0) [⟨"a", 2, 0⟩, ⟨"b", 4, 0⟩] 0) ∧
        ((history (fun _ => 0) [⟨"a", 2, 0⟩, ⟨"b", 4, 0⟩]).getD (0 + 1)
            default).equity =
          round2 ((portState (fun _ => 0) [⟨"a", 2, 0⟩, ⟨"b", 4, 0⟩] (0 + 1)).cash +
            (portState (fun _ => 0) [⟨"a", 2, 0⟩, ⟨"b", 4, 0⟩] (0 + 1)).units *
              priceAt [⟨"a", 2, 0⟩, ⟨"b", 4, 0⟩] (0 + 1)))) :=
  ⟨fun j _ => rfl,
    ⟨by decide,
      simulate_execution_lag (fun _ => 0) (fun _ => 0)
        [⟨"a", 2, 0⟩, ⟨"b", 4, 0⟩] 0 (fun j _ => rfl) (by decide)⟩⟩

/-- C4: metrics formulas. For every equity history with at least 2
points, `computeMetrics` produces a record with
`totalReturn = lastEquity / firstEquity - 1`,
`annualizedReturn = (1 + totalReturn) ^ (365 / days) - 1` where `days` is
the number of points, `volatility` equal to the population standard
deviation of the daily returns (squared deviations divided by `N`) times
`sqrt 365`, and `sharpeRatio = annualizedReturn / volatility`, equal to
`0` when the volatility is `0`. -/
theorem computeMetrics_formulas (hist : List HistRow) (h2 : 2 ≤ hist.length) :
    ∃ m, computeMetrics hist = some m ∧
      m.totalReturn = (hist.getD (hist.length - 1) default).equity /
        (hist.getD 0 default).equity - 1 ∧
      m.annualReturn =
        (1 + (m.totalReturn : ℝ)) ^ ((365 : ℝ) / (hist.length : ℝ)) - 1 ∧
      m.volatility = popStdDev (returnsOf hist) * Real.sqrt 365 ∧
      m.sharpe = m.annualReturn / m.volatility ∧
      (m.volatility = 0 → m.sharpe = 0) := by
  have hn : ¬hist.length < 2 := Nat.not_lt.mpr h2
  refine ⟨_, by rw [computeMetrics, if_neg hn], rfl, rfl, ?_, ?_, ?_⟩
  · show volOf hist = popStdDev (returnsOf hist) * Real.sqrt 365
    rw [volOf, popStdDev, variance_eq]
  · show sharpeOf hist = annReturnOf hist / volOf hist
    rw [sharpeOf]
    by_cases hv : 0 < volOf hist
    · rw [if_pos hv]
    · rw [if_neg hv, le_antisymm (le_of_not_lt hv) (volOf_nonneg hist),
        div_zero]
  · intro hv0
    show sharpeOf hist = 0
    rw [sharpeOf, if_neg (by rw [show volOf hist = 0 from hv0]; exact lt_irrefl 0)]

/-- Witness for C4: a three-row history. -/
theorem computeMetrics_formulas_witness :
    2 ≤ ([⟨"a", 1, 0, 100, 100, 0⟩, ⟨"b", 1, 0, 110, 100, 1⟩,
        ⟨"c", 1, 0, 99, 100, 0⟩] : List HistRow).length ∧
      ∃ m, computeMetrics [⟨"a", 1, 0, 100, 100, 0⟩, ⟨"b", 1, 0, 110, 100, 1⟩,
          ⟨"c", 1, 0, 99, 100, 0⟩] = some m ∧
        m.totalReturn = (([⟨"a", 1, 0, 100, 100, 0⟩, ⟨"b", 1, 0, 110, 100, 1⟩,
            ⟨"c", 1, 0, 99, 100, 0⟩] : List HistRow).getD
            (([⟨"a", 1, 0, 100, 100, 0⟩, ⟨"b", 1, 0, 110, 100, 1⟩,
              ⟨"c", 1, 0, 99, 100, 0⟩] : List HistRow).length - 1)
            default).equity /
          (([⟨"a", 1, 0, 100, 100, 0⟩, ⟨"b", 1, 0, 110, 100, 1⟩,
            ⟨"c", 1, 0, 99, 100, 0⟩] : List HistRow).getD 0 default).equity - 1 ∧
        m.annualReturn = (1 + (m.totalReturn : ℝ)) ^
          ((365 : ℝ) / (([⟨"a", 1, 0, 100, 100, 0⟩, ⟨"b", 1, 0, 110, 100, 1⟩,
            ⟨"c", 1, 0, 99, 100, 0⟩] : List HistRow).length : ℝ)) - 1 ∧
        m.volatility = popStdDev (returnsOf [⟨"a", 1, 0, 100, 100, 0⟩,
          ⟨"b", 1, 0, 110, 100, 1⟩, ⟨"c", 1, 0, 99, 100, 0⟩]) * Real.sqrt 365 ∧
        m.sharpe = m.annualReturn / m.volatility ∧
        (m.volatility = 0 → m.sharpe = 0) :=
  ⟨by decide,
    computeMetrics_formulas [⟨"a", 1, 0, 100, 100, 0⟩, ⟨"b", 1, 0, 110, 100, 1⟩,
      ⟨"c", 1, 0, 99, 100, 0⟩] (by decide)⟩

/-- C8: trade accounting. For a history whose signal column is binary,
the number of recorded closed trades equals the number of `1 → 0`
transitions of the signal series (an open trade at series end is not
counted since only exits push a trade), the win rate lies in `[0, 1]`,
and the loop's entry step records the entry row's equity while the exit
step records `exitEquity / entryEquity - 1`. -/
theorem trade_accounting (hist : List HistRow)
    (hbin : ∀ h ∈ hist, h.signal = 0 ∨ h.signal = 1) :
    (tradesOf hist).length = descents (hist.map (fun h => h.signal)) ∧
    0 ≤ winRateOf hist ∧ winRateOf hist ≤ 1 ∧
    (∀ (acc : Bool × ℚ × List ℚ) (h : HistRow), h.signal = 1 → acc.1 = false →
      tradesStep acc h = (true, h.equity, acc.2.2)) ∧
    (∀ (acc : Bool × ℚ × List ℚ) (h : HistRow), h.signal = 0 → acc.1 = true →
      tradesStep acc h = (false, acc.2.1, acc.2.2 ++ [h.equity / acc.2.1 - 1])) := by
  refine ⟨?_, ?_, ?_, ?_, ?_⟩
  · rw [tradesOf, tradesFold_length hist false 0 [] hbin]
    simp [descents_cons_zero]
  · rw [winRateOf]
    by_cases hl : 0 < (tradesOf hist).length
    · rw [if_pos hl]
      positivity
    · rw [if_neg hl]
  · rw [winRateOf]
    by_cases hl : 0 < (tradesOf hist).length
    · rw [if_pos hl]
      rw [div_le_one (by exact_mod_cast hl)]
      exact_mod_cast List.length_filter_le _ _
    · rw [if_neg hl]
      norm_num
  · intro acc h h1 hb
    rw [tradesStep, if_pos ⟨h1, hb⟩]
  · intro acc h h0 hb
    rw [tradesStep, if_neg (fun hc => by rw [h0] at hc; exact absurd hc.1 (by norm_num)),
      if_pos ⟨h0, hb⟩]

/-- Witness for C8: the three-row history with signals `0, 1, 0` (one
completed trade). -/
theorem trade_accounting_witness :
    (∀ h ∈ ([⟨"a", 1, 0, 100, 100, 0⟩, ⟨"b", 1, 0, 110, 100, 1⟩,
        ⟨"c", 1, 0, 99, 100, 0⟩] : List HistRow), h.signal = 0 ∨ h.signal = 1) ∧
      (tradesOf [⟨"a", 1, 0, 100, 100, 0⟩, ⟨"b", 1, 0, 110, 100, 1⟩,
          ⟨"c", 1, 0, 99, 100, 0⟩]).length =
        descents (([⟨"a", 1, 0, 100, 100, 0⟩, ⟨"b", 1, 0, 110, 100, 1⟩,
          ⟨"c", 1, 0, 99, 100, 0⟩] : List HistRow).map (fun h => h.signal)) :=
  ⟨by decide,
    (trade_accounting [⟨"a", 1, 0, 100, 100, 0⟩, ⟨"b", 1, 0, 110, 100, 1⟩,
      ⟨"c", 1, 0, 99, 100, 0⟩] (by decide)).1⟩

/-- C5 counterexample: the window-length denominator of the rolling
averages is NOT guarded. With `windowDays = 0` (and `smaDays = 1`, so
`minLookback = 1` and day `i = 1` of a 2-record series runs the loop
body), the engine computes `recentSum / window_days` with a zero
denominator and no guard, producing a non-finite value (`none`) instead
of the safe default `0`. -/
theorem division_guard_counterexample :
    avgSite [⟨"d0", 1, 2⟩, ⟨"d1", 1, 3⟩] 0 1 = none ∧
      minLookbackA 0 1 ≤ 1 ∧
      avgSite [⟨"d0", 1, 2⟩, ⟨"d1", 1, 3⟩] 0 1 ≠ some 0 := by
  refine ⟨?_, by decide, ?_⟩ <;> with_unfolding_all decide

/-- C5 as amended: the daily-return, drawdown and Sharpe denominators
are each explicitly guarded (`prev > 0`, `peak > 0`, `vol > 0`) with safe
default `0`, so those sites always produce a finite value; the
window-length denominators of the rolling averages are unguarded, and
produce a finite value only because every slider value is a positive
window length (`0 < w`). -/
theorem division_guards (prev curr peakv eqv : ℚ) (hist : List HistRow)
    (data : List DailyRecord) (w i : ℕ) (hw : 0 < w) :
    retSite prev curr = some (dailyReturn prev curr) ∧
    ddSite peakv eqv = some (drawdownOf peakv eqv) ∧
    sharpeSite (volOf hist) (annReturnOf hist) = some (sharpeOf hist) ∧
    avgSite data w i = some (recentAvgA data w i) := by
  refine ⟨?_, ?_, ?_, ?_⟩
  · rw [retSite, dailyReturn]
    by_cases hp : 0 < prev
    · rw [if_pos hp, if_pos hp, jsDiv, if_neg (ne_of_gt hp)]
    · rw [if_neg hp, if_neg hp]
  · rw [ddSite, drawdownOf]
    by_cases hp : 0 < peakv
    · rw [if_pos hp, if_pos hp, jsDiv, if_neg (ne_of_gt hp)]
    · rw [if_neg hp, if_neg hp]
  · rw [sharpeSite, sharpeOf]
    by_cases hv : 0 < volOf hist
    · rw [if_pos hv, if_pos hv, jsDivR, if_neg (ne_of_gt hv)]
    · rw [if_neg hv, if_neg hv]
  · rw [avgSite, jsDiv, recentAvgA,
      if_neg (Nat.cast_ne_zero.mpr (Nat.pos_iff_ne_zero.mp hw))]

/-- Witness for C5's amended statement: concrete values at every site,
window length `1`. -/
theorem division_guards_witness :
    0 < 1 ∧
      (retSite 1 2 = some (dailyReturn 1 2) ∧
      ddSite 1 1 = some (drawdownOf 1 1) ∧
      sharpeSite (volOf []) (annReturnOf []) = some (sharpeOf []) ∧
      avgSite [⟨"d0", 1, 2⟩, ⟨"d1", 1, 3⟩] 1 2 =
        some (recentAvgA [⟨"d0", 1, 2⟩, ⟨"d1", 1, 3⟩] 1 2)) :=
  ⟨by decide,
    division_guards 1 2 1 1 [] [⟨"d0", 1, 2⟩, ⟨"d1", 1, 3⟩] 1 2 (by decide)⟩

/-- C9 counterexample: the emitted benchmark equity is rounded to 2
decimals, so it does not exactly equal
`initialCapital / price[0] × price[i]`: with `price[0] = 3` and
`price[1] = 1`, day 1 emits `33333.33`, not `100000/3`. -/
theorem benchmark_rounding_counterexample :
    ((history (fun _ => 0) [⟨"d0", 3, 0⟩, ⟨"d1", 1, 0⟩]).getD 1 default).bhEquity ≠
      initialCapital / priceAt [⟨"d0", 3, 0⟩, ⟨"d1", 1, 0⟩] 0 *
        priceAt [⟨"d0", 3, 0⟩, ⟨"d1", 1, 0⟩] 1 := by
  with_unfolding_all decide

/-- C9 as amended: the emitted benchmark equity at day `i` equals
`initialCapital / price[0] × price[i]` rounded to 2 decimals, is
independent of the signal series, and at day 0 equals `initialCapital`
exactly. -/
theorem benchmark_linear (data : List DailyRecord) (sig sig' : ℕ → ℕ) (i : ℕ)
    (hi : i < data.length) (hp : 0 < priceAt data 0) :
    ((history sig data).getD i default).bhEquity =
      round2 (initialCapital / priceAt data 0 * priceAt data i) ∧
    ((history sig data).getD i default).bhEquity =
      ((history sig' data).getD i default).bhEquity ∧
    (i = 0 → ((history sig data).getD i default).bhEquity = initialCapital) := by
  refine ⟨?_, ?_, ?_⟩
  · rw [history_getD sig data i hi]
    rfl
  · rw [history_getD sig data i hi, history_getD sig' data i hi]
    rfl
  · intro h0
    subst h0
    rw [history_getD sig data 0 hi]
    show round2 (bhPosition data * priceAt data 0) = initialCapital
    rw [bhPosition, div_mul_cancel₀ _ (ne_of_gt hp)]
    norm_num [round2, jsRound, initialCapital]

/-- Witness for C9's amended statement: two-day series with prices 3 and
1, two different signal series. -/
theorem benchmark_linear_witness :
    1 < ([⟨"d0", 3, 0⟩, ⟨"d1", 1, 0⟩] : List DailyRecord).length ∧
      0 < priceAt [⟨"d0", 3, 0⟩, ⟨"d1", 1, 0⟩] 0 ∧
      (((history (fun _ => 0) [⟨"d0", 3, 0⟩, ⟨"d1", 1, 0⟩]).getD 1
          default).bhEquity =
        round2 (initialCapital / priceAt [⟨"d0", 3, 0⟩, ⟨"d1", 1, 0⟩] 0 *
          priceAt [⟨"d0", 3, 0⟩, ⟨"d1", 1, 0⟩] 1) ∧
      ((history (fun _ => 0) [⟨"d0", 3, 0⟩, ⟨"d1", 1, 0⟩]).getD 1
          default).bhEquity =
        ((history (fun _ => 1) [⟨"d0", 3, 0⟩, ⟨"d1", 1, 0⟩]).getD 1
          default).bhEquity ∧
      (1 = 0 → ((history (fun _ => 0) [⟨"d0", 3, 0⟩, ⟨"d1", 1, 0⟩]).getD 1
          default).bhEquity = initialCapital)) :=
  ⟨by decide, by with_unfolding_all decide,
    benchmark_linear [⟨"d0", 3, 0⟩, ⟨"d1", 1, 0⟩] (fun _ => 0) (fun _ => 1) 1
      (by decide) (by with_unfolding_all decide)⟩

/-- C10: `initialCapital` is the hard-coded constant `100000` of both
engines (`runBacktestA` and `runBacktestB` take no capital parameter),
and for every series with at least 2 records and a positive first price,
whatever the slider parameters, both engines emit a first history row
with `equity = 100000` and `bhEquity = 100000`. -/
theorem initial_capital_constant (data : List DailyRecord)
    (windowDays smaDays : ℕ) (trailingStopPct : ℚ)
    (h2 : 2 ≤ data.length) (hp : 0 < priceAt data 0) :
    initialCapital = 100000 ∧
    ∃ hA hB, runBacktestA data windowDays smaDays = some hA ∧
      runBacktestB data trailingStopPct = some hB ∧
      (hA.getD 0 default).equity = 100000 ∧
      (hA.getD 0 default).bhEquity = 100000 ∧
      (hB.getD 0 default).equity = 100000 ∧
      (hB.getD 0 default).bhEquity = 100000 := by
  have hn : ¬data.length < 2 := Nat.not_lt.mpr h2
  have h0 : 0 < data.length := by omega
  have heq : ∀ sig : ℕ → ℕ, ((history sig data).getD 0 default).equity = 100000 := by
    intro sig
    rw [history_getD sig data 0 h0]
    show round2 (initialCapital + 0 * priceAt data 0) = 100000
    rw [zero_mul, add_zero]
    norm_num [round2, jsRound, initialCapital]
  have hbh : ∀ sig : ℕ → ℕ,
      ((history sig data).getD 0 default).bhEquity = 100000 := by
    intro sig
    rw [history_getD sig data 0 h0]
    show round2 (bhPosition data * priceAt data 0) = 100000
    rw [bhPosition, div_mul_cancel₀ _ (ne_of_gt hp)]
    norm_num [round2, jsRound, initialCapital]
  exact ⟨rfl, _, _, by rw [runBacktestA, if_neg hn], by rw [runBacktestB, if_neg hn],
    heq _, hbh _, heq _, hbh _⟩

/-- Witness for C10: two-day series with unit prices, arbitrary
parameters. -/
theorem initial_capital_constant_witness :
    2 ≤ ([⟨"a", 1, 0⟩, ⟨"b", 1, 0⟩] : List DailyRecord).length ∧
      0 < priceAt [⟨"a", 1, 0⟩, ⟨"b", 1, 0⟩] 0 ∧
      (initialCapital = 100000 ∧
      ∃ hA hB, runBacktestA [⟨"a", 1, 0⟩, ⟨"b", 1, 0⟩] 7 14 = some hA ∧
        runBacktestB [⟨"a", 1, 0⟩, ⟨"b", 1, 0⟩] (1 / 10) = some hB ∧
        (hA.getD 0 default).equity = 100000 ∧
        (hA.getD 0 default).bhEquity = 100000 ∧
        (hB.getD 0 default).equity = 100000 ∧
        (hB.getD 0 default).bhEquity = 100000) :=
  ⟨by decide, by with_unfolding_all decide,
    initial_capital_constant [⟨"a", 1, 0⟩, ⟨"b", 1, 0⟩] 7 14 (1 / 10)
      (by decide) (by with_unfolding_all decide)⟩

end PumpStrategy
